import Mathlib

/-!
Verification of the `parsource` repository against its specification.

The Python modules `parsource/parser.py`, `parsource/transform.py` and
`parsource/tree.py` are shallowly embedded below.  Source text is modelled
as `List Char`, Python string slicing as `sliceL`, `str.find` as `pyFind`,
and Python's object heap (needed because `Node` objects carry mutable
parent/children pointers) as a partial map `Store` from node ids to node
records.  All definitions are executable so that concrete programs can be
evaluated inside proofs.
-/

/-- Python slice `text[a:b]` (with the usual clamping for out-of-range
indices on non-negative bounds). -/
def sliceL (l : List Char) (a b : Nat) : List Char :=
  (l.drop a).take (b - a)

/-- Python `text.find(sub, start, stop)`: index of the first occurrence of
`sub` lying entirely inside `text[start:stop]`, or `none` (Python `-1`). -/
def pyFind (text sub : List Char) (start stop : Nat) : Option Nat :=
  let stop2 := min stop text.length
  (List.range (stop2 + 1)).find? (fun j =>
    decide (start ≤ j) && decide (j + sub.length ≤ stop2) &&
      (sliceL text j (j + sub.length) == sub))

/-- The `DelimiterMatch` named tuple of `parser.py`: `(start, end, delim)`.
The Python field `end` is called `stop` here (`end` is a Lean keyword). -/
structure DelimiterMatch where
  start : Nat
  stop : Nat
  delim : Option (List Char)
deriving DecidableEq, Repr

/-- One iteration of the inner `for delim in delimiters` loop of
`iterDelimiters` (`parser.py` lines 244-251): look the delimiter up with
`text.find(delim, offset, min(i + 16, offset + lookahead))` and adopt it
as the new closest candidate when it is nearer and not escaped. -/
def closestStep (text : List Char) (escape : Char) (offset lookahead : Nat)
    (acc : Nat × Option (List Char)) (delim : List Char) :
    Nat × Option (List Char) :=
  match pyFind text delim offset (min (acc.1 + 16) (offset + lookahead)) with
  | some j =>
      if j < acc.1 && (j == 0 || !(text.get? (j - 1) == some escape)) then
        (j, some delim)
      else acc
  | none => acc

/-- The whole inner loop: starting from the candidate `(end-of-text,
None)`, fold `closestStep` over the delimiter list. -/
def closestDelimiter (text : List Char) (delimiters : List (List Char))
    (escape : Char) (offset lookahead : Nat) : Nat × Option (List Char) :=
  delimiters.foldl (closestStep text escape offset lookahead)
    (text.length, none)

/-- The `while offset < end` loop of `iterDelimiters` (`parser.py` lines
240-261), with explicit fuel.  Returns the yielded matches together with the
final value of `offset`.  Each executed iteration either strictly increases
`offset` or repeats the same state forever (in which case the Python
generator diverges), so `text.length + 1` units of fuel reproduce every
terminating run exactly. -/
def iterDelimitersLoop (text : List Char) (delimiters : List (List Char))
    (escape : Char) (lookahead : Nat) :
    Nat → Nat → List DelimiterMatch × Nat
  | 0, offset => ([], offset)
  | fuel + 1, offset =>
    if offset < text.length then
      match closestDelimiter text delimiters escape offset lookahead with
      | (i, some d) =>
          let rest := iterDelimitersLoop text delimiters escape lookahead fuel
            (i + d.length)
          (⟨i, i + d.length, some d⟩ :: rest.1, rest.2)
      | (_, none) =>
          iterDelimitersLoop text delimiters escape lookahead fuel
            (min (offset + lookahead) text.length)
    else ([], offset)

/-- `iterDelimiters(text, delimiters, escape, lookahead)` from `parser.py`:
the loop above followed by the trailing
`if offset < end: yield DelimiterMatch(offset, end, None)` check. -/
def iterDelimiters (text : List Char) (delimiters : List (List Char))
    (escape : Char) (lookahead : Nat) : List DelimiterMatch :=
  let r := iterDelimitersLoop text delimiters escape lookahead (text.length + 1) 0
  if r.2 < text.length then r.1 ++ [⟨r.2, text.length, none⟩] else r.1

/-- The event-type string constants of class `ParseEvent` (`parser.py`). -/
def ParseEvent.TEXT : String := ":text"

def ParseEvent.COMMENT : String := ":comment"

def ParseEvent.QUOTE : String := ":quote"

def ParseEvent.KEYWORD : String := ":keyword"

def ParseEvent.LINE_END : String := ":line-end"

def ParseEvent.STATEMENT_END : String := ":statement-end"

def ParseEvent.BLOCK_START : String := ":block-start"

def ParseEvent.BLOCK_END : String := ":block-end"

/-- A `ParseEvent` instance: `(type, start, end, value)`.  The `source`
field of the Python object is the input text itself and is threaded
separately; `event.text` is `sliceL source start stop`. -/
structure PEvent where
  type : String
  start : Nat
  stop : Nat
  value : Option (List Char)
deriving DecidableEq, Repr

/-- A `BlockLanguage` configuration: the class attributes read by
`BlockLanguage.__init__` (`parser.py` lines 22-45).  `ESCAPE` is a
one-character string in the source and is modelled as a `Char`. -/
structure BlockLang where
  escape : Char
  trim : List Char
  statementEnd : List (List Char)
  lineEnd : List (List Char)
  comments : List (List Char)
  blocks : List (List Char × List Char)
  quotes : List (List Char)

/-- `self.blockStart = [_[0] for _ in self.blocks]`. -/
def BlockLang.blockStart (l : BlockLang) : List (List Char) :=
  l.blocks.map Prod.fst

/-- `self.blockEnd = [_[1] for _ in self.blocks]`. -/
def BlockLang.blockEnd (l : BlockLang) : List (List Char) :=
  l.blocks.map Prod.snd

/-- `self.delimiters = [escape] + comments + blockStart + blockEnd + quotes
+ lineEnd + statementEnd` (`parser.py` lines 50-51).  Note the escape
character itself heads the list. -/
def BlockLang.delimiters (l : BlockLang) : List (List Char) :=
  [[l.escape]] ++ l.comments ++ l.blockStart ++ l.blockEnd ++ l.quotes ++
    l.lineEnd ++ l.statementEnd

/-- The `(delimiter, event type)` writes performed by the
`self.events[delim] = event_type` loop of `__init__`, in write order. -/
def BlockLang.eventPairs (l : BlockLang) : List (List Char × String) :=
  l.comments.map (fun d => (d, ParseEvent.COMMENT)) ++
    l.lineEnd.map (fun d => (d, ParseEvent.LINE_END)) ++
    l.statementEnd.map (fun d => (d, ParseEvent.STATEMENT_END)) ++
    l.blockStart.map (fun d => (d, ParseEvent.BLOCK_START)) ++
    l.blockEnd.map (fun d => (d, ParseEvent.BLOCK_END)) ++
    l.quotes.map (fun d => (d, ParseEvent.QUOTE))

/-- `self.events.get(delim)`: a Python dict keeps the last write for a key,
so look the reversed write list up. -/
def BlockLang.eventsGet (l : BlockLang) (d : List Char) : Option String :=
  l.eventPairs.reverse.lookup d

/-- The default `BlockLanguage()` configuration (`parser.py` lines 24-35). -/
def defaultBlockLang : BlockLang where
  escape := '\\'
  trim := " \t\n".toList
  statementEnd := [";".toList, ":".toList]
  lineEnd := ["\n".toList]
  comments := ["//".toList, "#".toList]
  blocks := [("\x7b".toList, "\x7d".toList), ("[".toList, "]".toList),
    ("(".toList, ")".toList), ("/*".toList, "*/".toList)]
  quotes := ["\"".toList, "'".toList, "\"\"\"".toList]

/-- The `trim(text, trim, start, end)` utility (`parser.py` lines 217-224):
skip trim characters inward from both ends of `text[start:end]`. -/
def trimOffsets (text trimChars : List Char) (start stop : Nat) : Nat × Nat :=
  let seg := sliceL text start stop
  let l := (seg.takeWhile (fun c => trimChars.contains c)).length
  let r := (((seg.drop l).reverse).takeWhile (fun c => trimChars.contains c)).length
  (start + l, stop - r)

/-- The exceptions `BlockParser.parse` can raise. `unknownDelimiter d` is
the `ValueError(f"Unknown delimiter {repr(delim)}")` branch; `typeErr` is
the `TypeError` that `len(None)` would raise on a trailing
`(offset, end, None)` triple. -/
inductive ParseErr where
  | unknownDelimiter (d : List Char)
  | typeErr
deriving DecidableEq, Repr

/-- The event loop of `BlockParser.parse` (`parser.py` lines 145-179),
folded over the scanner output.  `quoteType`/`quoteStart` are the
`quote_type`/`quote_start` state variables (Python initialises
`quote_start` to `-1`, but it is only ever read after a quote-open has
assigned it, so a `Nat` starting at 0 is faithful).  A raised exception
aborts the generator, so an error discards the remaining events. -/
def blockParseLoop (lang : BlockLang) (src : List Char) :
    List DelimiterMatch → Option (List Char) → Nat →
    Except ParseErr (List PEvent)
  | [], _, _ => Except.ok []
  | m :: ms, some qt, quoteStart =>
    if m.delim ≠ some qt then
      blockParseLoop lang src ms (some qt) quoteStart
    else
      match blockParseLoop lang src ms none quoteStart with
      | Except.ok rest =>
          Except.ok (⟨ParseEvent.QUOTE, quoteStart, m.stop, some qt⟩ :: rest)
      | Except.error e => Except.error e
  | m :: ms, none, quoteStart =>
    match m.delim with
    | none => Except.error ParseErr.typeErr
    | some d =>
      let delimStart := m.stop - d.length
      let textEvents :=
        if m.start < delimStart then
          let t := trimOffsets src lang.trim m.start delimStart
          if t.1 < t.2 then [⟨ParseEvent.TEXT, t.1, t.2, none⟩] else []
        else []
      match lang.eventsGet d with
      | some et =>
          if et = ParseEvent.QUOTE then
            match blockParseLoop lang src ms (some d) delimStart with
            | Except.ok rest => Except.ok (textEvents ++ rest)
            | Except.error e => Except.error e
          else
            match blockParseLoop lang src ms none quoteStart with
            | Except.ok rest =>
                Except.ok (textEvents ++ ⟨et, delimStart, m.stop, some d⟩ :: rest)
            | Except.error e => Except.error e
      | none => Except.error (ParseErr.unknownDelimiter d)

/-- `BlockParser(lang).parse(text)`: scan with the language's combined
delimiter list, escape character and the default lookahead of 256, then
classify. -/
def blockParse (lang : BlockLang) (src : List Char) :
    Except ParseErr (List PEvent) :=
  blockParseLoop lang src (iterDelimiters src lang.delimiters lang.escape 256)
    none 0

/-- Attribute values stored on nodes: Python `None`, ints (parse offsets)
and strings (node values / block types). -/
inductive AVal where
  | nil
  | nat (n : Nat)
  | str (s : List Char)
deriving DecidableEq, Repr

/-- The data fields of a `tree.py` `Node` object: `name`, `attributes`
(an insertion-ordered dict), `_children` (a list of references, modelled
as ids) and the `parent` back-reference. -/
structure NodeData where
  name : String
  attrs : List (String × AVal)
  children : List Nat
  parent : Option Nat
deriving DecidableEq, Repr

/-- The Python object heap restricted to `Node` objects: a map from node
id to node data.  Ids are allocated from a monotone counter, so they are
unique. -/
def Store : Type := Nat → Option NodeData

/-- Write one node record (field assignments on the object with this id). -/
def Store.set (s : Store) (i : Nat) (d : NodeData) : Store :=
  fun j => if j = i then some d else s j

/-- The empty heap. -/
def Store.empty : Store := fun _ => none

/-- `node.name` of the node with id `i`. -/
def nameOf (s : Store) (i : Nat) : Option String :=
  (s i).map NodeData.name

/-- `node.children` of the node with id `i` (empty when absent). -/
def childrenOf (s : Store) (i : Nat) : List Nat :=
  match s i with
  | some d => d.children
  | none => []

/-- `node.attributes.get(k)`. -/
def attrOf (s : Store) (i : Nat) (k : String) : Option AVal :=
  match s i with
  | some d => d.attrs.lookup k
  | none => none

/-- `node.parent` of the node with id `i` (`none` also when absent). -/
def parentOf (s : Store) (i : Nat) : Option Nat :=
  (s i).bind NodeData.parent

/-- Updating one dict entry in place: the entry whose key is `k` becomes
`(k, v)`; other entries are untouched. -/
def pyDictUpdateEntry (k : String) (v : AVal) (p : String × AVal) :
    String × AVal :=
  if p.1 == k then (k, v) else p

/-- Python `dict[k] = v`: update the existing entry in place, else append. -/
def pyDictSet (d : List (String × AVal)) (k : String) (v : AVal) :
    List (String × AVal) :=
  if (d.lookup k).isSome then d.map (pyDictUpdateEntry k v)
  else d ++ [(k, v)]

/-- The field assignment `node.parent = q`. -/
def storeSetParent (s : Store) (c : Nat) (q : Option Nat) : Store :=
  match s c with
  | some cd => s.set c { cd with parent := q }
  | none => s

/-- The statement `self._children.remove(node)` (Python `list.remove`
deletes the first occurrence). -/
def storeEraseChild (s : Store) (p c : Nat) : Store :=
  match s p with
  | some pd => s.set p { pd with children := pd.children.erase c }
  | none => s

/-- The statement `self._children.append(node)`. -/
def storeAppendChild (s : Store) (p c : Nat) : Store :=
  match s p with
  | some pd => s.set p { pd with children := pd.children ++ [c] }
  | none => s

/-- `Node.remove(self=p, node=c)` (`tree.py` lines 210-215): clear the
child's parent pointer, then delete it from the parent's child list. -/
def storeRemove (s : Store) (p c : Nat) : Store :=
  storeEraseChild (storeSetParent s c none) p c

/-- `Node.detach` (`tree.py` lines 137-140): `if self.parent:
self.parent.remove(self)`. -/
def storeDetach (s : Store) (c : Nat) : Store :=
  match s c with
  | some cd =>
      match cd.parent with
      | some p => storeRemove s p c
      | none => s
  | none => s

/-- `Node.add` / `Node.append` (`tree.py` lines 169-175): set the child's
parent pointer, then append to the parent's child list.  The source
asserts `not node.parent`; every call modelled below supplies a detached
node or a freshly created one, so the assertion holds. -/
def storeAdd (s : Store) (p c : Nat) : Store :=
  storeAppendChild (storeSetParent s c (some p)) p c

/-- The `for c in children: self.add(c.detach())` loop shared by
`Node.merge` (`tree.py` line 165-166) and the statement re-parenting
branch of `TreeExtractor.feed` (`transform.py` lines 105-106): move each
listed node, in order, to the end of `dst`'s children. -/
def moveChildren (dst : Nat) (cs : List Nat) (s : Store) : Store :=
  cs.foldl (fun t c => storeAdd (storeDetach t c) dst c) s

/-- `Node.nextSibling` (`tree.py` lines 77-83): position of `self` in the
parent's child list, plus one. -/
def storeNextSibling (s : Store) (c : Nat) : Option Nat :=
  match s c with
  | some cd =>
      match cd.parent with
      | some p =>
          match s p with
          | some pd =>
              match pd.children.findIdx? (fun x => x == c) with
              | some i => pd.children.get? (i + 1)
              | none => none
          | none => none
      | none => none
  | none => none

/-- `Node.firstChild`. -/
def storeFirstChild (s : Store) (i : Nat) : Option Nat :=
  match s i with
  | some d => d.children.head?
  | none => none

/-- The state of a `TreeExtractor` (`transform.py`): the heap, the id
counter, and the `(node, awaited event type)` stack.  The stack mirrors
the Python list, top at the end; the root frame is `(root, "")`. -/
structure ExtState where
  store : Store
  nextId : Nat
  stack : List (Nat × String)
  withOffsets : Bool

/-- `TreeExtractor.reset`: a fresh `Node("root")` (id 0) and the stack
holding the single root frame. -/
def ExtState.init (withOffsets : Bool) : ExtState where
  store := Store.empty.set 0 ⟨"root", [], [], none⟩
  nextId := 1
  stack := [(0, "")]
  withOffsets := withOffsets

/-- `TreeExtractor.node(event, name, **attributes)`: create a node and,
with offsets enabled, set the `start`/`end` attributes from the event.
Returns the updated state and the fresh id. -/
def ExtState.mkNode (st : ExtState) (ev : PEvent) (name : String)
    (attrs : List (String × AVal)) : ExtState × Nat :=
  let a := if st.withOffsets then
      pyDictSet (pyDictSet attrs "start" (AVal.nat ev.start)) "end"
        (AVal.nat ev.stop)
    else attrs
  ({ st with
      store := st.store.set st.nextId ⟨name, a, [], none⟩
      nextId := st.nextId + 1 },
    st.nextId)

/-- `TreeExtractor.push`. -/
def ExtState.push (st : ExtState) (n : Nat) (eventType : String) : ExtState :=
  { st with stack := st.stack ++ [(n, eventType)] }

/-- `TreeExtractor.append`: append a node to the current scope. -/
def ExtState.appendTo (st : ExtState) (p c : Nat) : ExtState :=
  { st with store := storeAdd st.store p c }

/-- `TreeExtractor.pop` (`transform.py` lines 76-83): the top frame is
popped first; only then is the emptied stack detected and the fatal
`"More pops than pushes"` exception raised, and the popped node is
asserted to be among the new top's children.  An exception leaves the
already-mutated state behind. -/
def ExtState.pop (st : ExtState) : ExtState × Option String :=
  match st.stack.getLast? with
  | none => (st, some "IndexError: pop from empty list")
  | some old =>
    let st1 := { st with stack := st.stack.dropLast }
    match st1.stack.getLast? with
    | none => (st1, some "More pops than pushes")
    | some cur =>
        if old.1 ∈ childrenOf st1.store cur.1 then (st1, none)
        else (st1, some "AssertionError: popped value not in current value")

/-- Does the node with id `c` have `name == "statement"`? -/
def isStatementNode (s : Store) (c : Nat) : Bool :=
  match s c with
  | some d => d.name == "statement"
  | none => false

/-- `TreeExtractor.feed` (`transform.py` lines 89-123).  `src` is the
source text the events point into (`event.text` is `sliceL src start
stop`).  Returns the mutated state and the raised exception, if any. -/
def extFeed (src : List Char) (st : ExtState) (ev : PEvent) :
    ExtState × Option String :=
  match st.stack.getLast? with
  | none => (st, some "IndexError: list index out of range")
  | some (cur, curTag) =>
    if ev.type = ParseEvent.COMMENT then
      let r := st.mkNode ev "comment" []
      ((r.1.appendTo cur r.2).push r.2 ParseEvent.LINE_END, none)
    else if ev.type = ParseEvent.BLOCK_START then
      let v := match ev.value with
        | some d => AVal.str d
        | none => AVal.nil
      let r := st.mkNode ev "block" [("type", v)]
      ((r.1.appendTo cur r.2).push r.2 ev.type, none)
    else if ev.type = ParseEvent.LINE_END then
      if curTag = ParseEvent.LINE_END then st.pop else (st, none)
    else if ev.type = ParseEvent.STATEMENT_END then
      let kids := childrenOf st.store cur
      let revIdx :=
        ((kids.reverse.findIdx? (fun c => isStatementNode st.store c)).getD 0)
      let r := st.mkNode ev "statement" []
      let moved := kids.drop revIdx
      let st2 := { r.1 with store := moveChildren r.2 moved r.1.store }
      (st2.appendTo cur r.2, none)
    else if ev.type = ParseEvent.BLOCK_END then
      st.pop
    else if ev.type = ParseEvent.QUOTE then
      let r := st.mkNode ev "quote" [("value", AVal.str (sliceL src ev.start ev.stop))]
      (r.1.appendTo cur r.2, none)
    else if ev.type = ParseEvent.TEXT then
      let r := st.mkNode ev "text" [("value", AVal.str (sliceL src ev.start ev.stop))]
      (r.1.appendTo cur r.2, none)
    else if ev.type = ParseEvent.KEYWORD then
      let r := st.mkNode ev "keyword" [("value", AVal.str (sliceL src ev.start ev.stop))]
      (r.1.appendTo cur r.2, none)
    else if ev.type = ":op-infix" then
      let r := st.mkNode ev "op-inf" [("value", AVal.str (sliceL src ev.start ev.stop))]
      (r.1.appendTo cur r.2, none)
    else if ev.type = ":op-suffix" then
      let r := st.mkNode ev "op-suf" [("value", AVal.str (sliceL src ev.start ev.stop))]
      (r.1.appendTo cur r.2, none)
    else if ev.type = ":op-prefix" then
      let r := st.mkNode ev "op-pre" [("value", AVal.str (sliceL src ev.start ev.stop))]
      (r.1.appendTo cur r.2, none)
    else (st, some "ValueError: Unsupported event")

/-- `Transform.process`: feed each event in order; a raised exception
propagates and stops the pass. -/
def extRun (src : List Char) : List PEvent → ExtState → ExtState × Option String
  | [], st => (st, none)
  | ev :: evs, st =>
    match extFeed src st ev with
    | (st1, none) => extRun src evs st1
    | (st1, some e) => (st1, some e)

/-- A dispatch table for a `TreeProcessor`/`TreeTransform`: kind name to
handler.  Handlers mutate the heap (Python handlers receive the node and
may restructure the tree). -/
def Handlers : Type := List (String × (Store → Nat → Store))

mutual

/-- `TreeProcessor.process`/`feed` as called on a single node from
`TreeTransform.catchall` (`tree.py` lines 370-403, 423-448): dispatch on
the node's kind; run the registered handler if one exists, otherwise
recurse through the children (the `TreeTransform` catchall).  Returns the
mutated heap and the visit trace: one `(node id, parent id at visit
time)` entry per `process` call, in call order. -/
def ttProcess (handlers : Handlers) :
    Nat → Store → Nat → Store × List (Nat × Option Nat)
  | 0, s, _ => (s, [])
  | fuel + 1, s, id =>
    match s id with
    | none => (s, [(id, none)])
    | some d =>
      match handlers.lookup d.name with
      | some h => (h s id, [(id, d.parent)])
      | none =>
          let r := ttWalkChildren handlers fuel s (storeFirstChild s id)
          (r.1, (id, d.parent) :: r.2)

/-- The `current = node.firstChild; while current: ...` loop of
`TreeTransform.catchall` (`tree.py` lines 436-448): the next sibling is
prefetched *before* the current child is processed, so a handler may move
or detach the current child without derailing the walk. -/
def ttWalkChildren (handlers : Handlers) :
    Nat → Store → Option Nat → Store × List (Nat × Option Nat)
  | 0, s, _ => (s, [])
  | _ + 1, s, none => (s, [])
  | fuel + 1, s, some c =>
    let nxt := storeNextSibling s c
    let r1 := ttProcess handlers fuel s c
    let r2 := ttWalkChildren handlers fuel r1.1 nxt
    (r2.1, r1.2 ++ r2.2)

end

/-- The hypothetical transform handler of spec §8 property 5: on visiting
a `comment` node, detach the comment's own next sibling and re-append it
as the comment's child (built from `Node.nextSibling`, `Node.detach` and
`Node.append` of `tree.py`). -/
def commentMoveHandler (s : Store) (id : Nat) : Store :=
  match storeNextSibling s id with
  | some sib => storeAdd (storeDetach s sib) id sib
  | none => s

/-- `Node.merge(node, attributes, replace)` attribute loop (`tree.py`
lines 158-167): for every attribute of the source, write it into this
node's dict when `replace` is set or the key is absent. -/
def mergeAttrsFold (selfAttrs otherAttrs : List (String × AVal))
    (replace : Bool) : List (String × AVal) :=
  otherAttrs.foldl
    (fun d kv =>
      if replace || (d.lookup kv.1).isNone then pyDictSet d kv.1 kv.2 else d)
    selfAttrs

/-- `a.merge(b, attributes, replace)` (`tree.py` lines 158-167): snapshot
`b`'s children, merge the attributes, then `self.add(c.detach())` each
child in order. -/
def storeMerge (s : Store) (a b : Nat) (attributes replace : Bool) : Store :=
  match s a, s b with
  | some ad, some bd =>
      let s1 := if attributes then
          s.set a { ad with attrs := mergeAttrsFold ad.attrs bd.attrs replace }
        else s
      moveChildren a bd.children s1
  | _, _ => s

/-- `a.absorb(b)` (`tree.py` lines 152-156): `b.detach()` then
`a.merge(b)` with the default arguments. -/
def storeAbsorb (s : Store) (a b : Nat) : Store :=
  storeMerge (storeDetach s b) a b true false

/-- The names defined or imported at the top level of `tree.py` (its
module namespace): the `typing` imports, `json`, `inspect`, and the three
classes.  `TreeProcessorError` is referenced by `TreeProcessor.feed` and
`TreeProcessor.catchall` but is absent from this namespace (and from the
whole repository). -/
def treePyTopLevelNames : List String :=
  ["Optional", "Any", "List", "Dict", "Union", "Iterator", "Iterable",
    "Callable", "json", "inspect", "Node", "TreeProcessor", "TreeTransform"]

/-- A value yielded by `TreeProcessor.feed`: the diagnostic object
`TreeProcessorError(node, message)`. -/
inductive ProcOut where
  | diag (id : Nat) (msg : String)
deriving DecidableEq, Repr

/-- `TreeProcessor.catchall` (`tree.py` lines 413-414):
`yield TreeProcessorError(node, f"... does not support node type: ...")`.
Evaluating the name `TreeProcessorError` consults the module namespace;
since the name is undefined there, Python raises `NameError` instead of
constructing the diagnostic. -/
def treeProcessorCatchall (className : String) (s : Store) (id : Nat) :
    Except String (List ProcOut) :=
  if treePyTopLevelNames.contains "TreeProcessorError" then
    Except.ok [ProcOut.diag id
      (className ++ " does not support node type: " ++ (nameOf s id).getD "")]
  else
    Except.error "NameError: name TreeProcessorError is not defined"

/-- `TreeProcessor.feed` (`tree.py` lines 387-403) for the plain
`TreeProcessor` dispatch: look the node's kind up in `self.matches`
(modelled by the list of registered kind names, each paired with the
values its handler yields) and fall back to `catchall` when absent. -/
def treeProcessorFeed (className : String)
    (matchTable : List (String × List ProcOut)) (s : Store) (id : Nat) :
    Except String (List ProcOut) :=
  match nameOf s id with
  | some nm =>
      match matchTable.lookup nm with
      | some out => Except.ok out
      | none => treeProcessorCatchall className s id
  | none => Except.error "AttributeError"

/-- The scan offset the spec attributes to the `i`-th yielded triple: the
`stop` of the previous yield, or 0 for the first. -/
def prevStop (l : List DelimiterMatch) : Nat → Nat
  | 0 => 0
  | i + 1 =>
    match l.get? i with
    | some m => m.stop
    | none => 0

/-- Claim C1, following the spec's words: whenever the scanner yields a
delimiter triple, its first component is the current scan offset (the end
of the previous yield, or the start of the text), so the gap since the
previous yield is part of the emitted span. -/
def specC1 : Prop :=
  ∀ (text : List Char) (ds : List (List Char)) (esc : Char) (la : Nat)
    (i : Nat) (m : DelimiterMatch),
    (iterDelimiters text ds esc la).get? i = some m → m.delim.isSome →
      m.start = prevStop (iterDelimiters text ds esc la) i

/-- Claim C2, following the spec's words: for every table built by the
`BlockLanguage` constructor, every literal of the combined delimiter list
maps to an event kind, and the block classifier's fatal unknown-delimiter
branch is unreachable on every input. -/
def specC2 : Prop :=
  ∀ (l : BlockLang) (text d : List Char),
    (d ∈ l.delimiters → (l.eventsGet d).isSome) ∧
      blockParse l text ≠ Except.error (ParseErr.unknownDelimiter d)

/-- The input of claim C3. -/
def c3Src : List Char := "let a = 10;".toList

/-- The claim-C3 pipeline: block-classify `"let a = 10;"` with the default
table and feed the events to a fresh `TreeExtractor`. -/
def c3Run : ExtState × Option String :=
  match blockParse defaultBlockLang c3Src with
  | Except.ok evs => extRun c3Src evs (ExtState.init true)
  | Except.error _ => (ExtState.init true, some "parse error")

/-- Claim C3, following the spec's words: the run succeeds and the root
has exactly one child, a `statement` node, containing the keyword `let`
and two `text` leaves with values `a` and `10`. -/
def specC3 : Prop :=
  c3Run.2 = none ∧
    ∃ sid ∈ childrenOf c3Run.1.store 0,
      childrenOf c3Run.1.store 0 = [sid] ∧
      nameOf c3Run.1.store sid = some "statement" ∧
      (∃ k ∈ childrenOf c3Run.1.store sid,
        nameOf c3Run.1.store k = some "keyword" ∧
          attrOf c3Run.1.store k "value" = some (AVal.str "let".toList)) ∧
      (∃ t ∈ childrenOf c3Run.1.store sid,
        nameOf c3Run.1.store t = some "text" ∧
          attrOf c3Run.1.store t "value" = some (AVal.str "a".toList)) ∧
      (∃ t ∈ childrenOf c3Run.1.store sid,
        nameOf c3Run.1.store t = some "text" ∧
          attrOf c3Run.1.store t "value" = some (AVal.str "10".toList))

/-- The index the spec intends statement re-parenting to slice the child
list from: just after the most recent `statement` child, or the start of
the scope when there is none. -/
def intendedDropIdx (s : Store) (kids : List Nat) : Nat :=
  match kids.reverse.findIdx? (fun c => isStatementNode s c) with
  | some r => kids.length - r
  | none => 0

/-- Claim C4, following the spec's words: a statement-end event moves into
a newly created `statement` node exactly the current scope's children
from just after the most recent `statement` child onward (all of them
when there is none), preserving order, and appends the new node to the
scope. -/
def specC4 : Prop :=
  ∀ (src : List Char) (st : ExtState) (ev : PEvent) (cur : Nat)
    (curTag : String) (cd : NodeData),
    st.stack.getLast? = some (cur, curTag) →
    st.store cur = some cd →
    cd.children.Nodup →
    (∀ c ∈ cd.children, (st.store c).isSome ∧ parentOf st.store c = some cur) →
    cur ∉ cd.children →
    st.store st.nextId = none →
    ev.type = ParseEvent.STATEMENT_END →
    ∃ nid ∈ childrenOf (extFeed src st ev).1.store cur,
      childrenOf (extFeed src st ev).1.store cur =
        cd.children.take (intendedDropIdx st.store cd.children) ++ [nid] ∧
      nameOf (extFeed src st ev).1.store nid = some "statement" ∧
      childrenOf (extFeed src st ev).1.store nid =
        cd.children.drop (intendedDropIdx st.store cd.children)

/-- The source text and event stream driving the extractor into a scope
that already has a `statement` child followed by two `text` children:
`statement-end, text "a", text "b"`. -/
def c4Src : List Char := "ab;;".toList

/-- Events leading to the pre-state of the C4 counterexample. -/
def c4SetupEvents : List PEvent :=
  [⟨ParseEvent.STATEMENT_END, 2, 3, some [';']⟩,
   ⟨ParseEvent.TEXT, 0, 1, none⟩,
   ⟨ParseEvent.TEXT, 1, 2, none⟩]

/-- The extractor state whose root scope has children
`[statement, text a, text b]`. -/
def c4State : ExtState := (extRun c4Src c4SetupEvents (ExtState.init true)).1

/-- The second statement-end event of the C4 counterexample. -/
def c4Event : PEvent := ⟨ParseEvent.STATEMENT_END, 3, 4, some [';']⟩

/-- Claim C5, following the spec's words: feeding a close event while only
the root frame remains raises a fatal error and leaves the stack — still
containing the root frame — unchanged. -/
def specC5 : Prop :=
  ∀ (src : List Char) (st : ExtState) (ev : PEvent) (f : Nat × String),
    st.stack = [f] → ev.type = ParseEvent.BLOCK_END →
      (extFeed src st ev).2.isSome ∧ (extFeed src st ev).1.stack = st.stack

/-- The input of claim C9. -/
def c9Src : List Char := "a \"b ; c\" d".toList

/-- The heap of the C8 scenario: a root whose children are a `comment`
node (id 1) followed by a `text` sibling (id 2). -/
def c8Store : Store := fun n =>
  if n = 0 then some ⟨"root", [], [1, 2], none⟩
  else if n = 1 then some ⟨"comment", [], [], some 0⟩
  else if n = 2 then some ⟨"text", [("value", AVal.str ['x'])], [], some 0⟩
  else none

/-- The C8 walk: a `TreeTransform` whose only handler is the
comment-moving handler, processed from the root. -/
def c8Run : Store × List (Nat × Option Nat) :=
  ttProcess [("comment", commentMoveHandler)] 10 c8Store 0

/-- The heap of the C7 scenario: a single node of kind `foo`, a kind no
handler is registered for. -/
def c7Store : Store := fun n =>
  if n = 0 then some ⟨"foo", [], [], none⟩ else none

/-- The heap of the C10 witness: `a` (id 0) with attributes
`k='x', i=1` and one child (id 3); `b` (id 1) with attributes
`k='y', j=2`, two children (ids 4, 5) and parent `q` (id 6). -/
def c10Store : Store := fun n =>
  if n = 0 then some ⟨"a", [("k", AVal.str ['x']), ("i", AVal.nat 1)], [3], none⟩
  else if n = 1 then
    some ⟨"b", [("k", AVal.str ['y']), ("j", AVal.nat 2)], [4, 5], some 6⟩
  else if n = 3 then some ⟨"text", [], [], some 0⟩
  else if n = 4 then some ⟨"text", [], [], some 1⟩
  else if n = 5 then some ⟨"text", [], [], some 1⟩
  else if n = 6 then some ⟨"q", [], [1], none⟩
  else none

/-! ## Theorems -/

set_option maxRecDepth 40000

theorem Store.set_same (s : Store) (i : Nat) (d : NodeData) :
    (s.set i d) i = some d := by
  simp [Store.set]

theorem Store.set_other (s : Store) (i j : Nat) (d : NodeData) (h : j ≠ i) :
    (s.set i d) j = s j := by
  simp [Store.set, h]

/-- C9 (confirmed): on `a "b ; c" d` with the default block table the
classifier emits exactly one event, a `quote` event spanning offsets 2-9,
whose span is the text `"b ; c"` (quotes included); in particular no event
is emitted for the `;` inside the quotes. -/
theorem c9_quote_swallowing :
    blockParse defaultBlockLang c9Src =
      Except.ok [⟨ParseEvent.QUOTE, 2, 9, some ['"']⟩] ∧
    sliceL c9Src 2 9 = "\"b ; c\"".toList := by
  constructor
  · rfl
  · rfl

/-- C6 (code bug): the trailing `(offset, end, none)` triple is never
yielded.  On `"ab"` with delimiter `";"` the scanner yields nothing at
all, and on `";ab"` it yields only the delimiter triple — the trailing
fragments `"ab"` are not covered. -/
theorem c6_trailing_fragment_never_yielded :
    iterDelimiters "ab".toList [";".toList] '\\' 256 = [] ∧
    iterDelimiters ";ab".toList [";".toList] '\\' 256 =
      [⟨0, 1, some [';']⟩] := by
  constructor
  · rfl
  · rfl

/-- C7 (code bug): dispatching a node of unregistered kind `foo` through
the plain `TreeProcessor` raises `NameError` — the diagnostic class
`TreeProcessorError` is not defined anywhere in the module — instead of
yielding a diagnostic value. -/
theorem c7_catchall_raises_nameError :
    treeProcessorFeed "TreeProcessor" [] c7Store 0 =
      Except.error "NameError: name TreeProcessorError is not defined" ∧
    "TreeProcessorError" ∉ treePyTopLevelNames := by
  constructor
  · rfl
  · decide

/-- C8 (confirmed): under the Transform catchall walk with a handler that
moves the comment's next sibling into the comment, the sibling (id 2) is
visited exactly once — after the move, so with the comment (id 1) as its
parent — and ends up as the comment's only child. -/
theorem c8_moved_sibling_visited_once :
    c8Run.2 = [(0, none), (1, some 0), (2, some 1)] ∧
    (c8Run.2.filter (fun p => p.1 == 2)).length = 1 ∧
    c8Run.1 0 = some ⟨"root", [], [1], none⟩ ∧
    c8Run.1 1 = some ⟨"comment", [], [2], some 0⟩ ∧
    c8Run.1 2 = some ⟨"text", [("value", AVal.str ['x'])], [], some 1⟩ := by
  refine ⟨rfl, rfl, rfl, rfl, rfl⟩

/-- C3 (corrected), counterexample: the claimed tree for `"let a = 10;"`
does not materialise — the `statement` node the extractor builds has no
children, so it contains neither the keyword `let` nor any `text` leaf. -/
theorem specC3_false : ¬ specC3 := by
  unfold specC3
  decide

/-- C3 (corrected), amended: parsing `"let a = 10;"` with the block
classifier and the tree extractor yields a root with exactly one child, a
`statement` node with no children at all. -/
theorem c3_let_statement_is_empty :
    c3Run.2 = none ∧
    childrenOf c3Run.1.store 0 = [1] ∧
    nameOf c3Run.1.store 1 = some "statement" ∧
    childrenOf c3Run.1.store 1 = [] := by
  refine ⟨rfl, rfl, rfl, rfl⟩

/-- C5 (corrected), counterexample: feeding a block-end to a fresh
extractor (only the root frame on the stack) does raise, but the stack
does not keep the root frame — it is left empty. -/
theorem specC5_false : ¬ specC5 := by
  intro h
  have := (h "x".toList (ExtState.init true)
    ⟨ParseEvent.BLOCK_END, 0, 0, none⟩ (0, "") rfl rfl).2
  exact absurd this (by decide)

/-- C1 (corrected), counterexample: scanning `"ab;"` for `";"` yields the
triple `(2, 3, ";")` — its first component is the start of the delimiter,
not the scan offset 0, so the gap `"ab"` is in no emitted span. -/
theorem specC1_false : ¬ specC1 := by
  intro h
  have := h "ab;".toList [";".toList] '\\' 256 0 ⟨2, 3, some [';']⟩
    (by decide) (by decide)
  exact absurd this (by decide)

/-- C2 (corrected), counterexample: the combined delimiter list of the
default table contains the escape `"\\"`, which has no event kind, and
classifying the one-character input `"\\"` reaches the fatal
unknown-delimiter branch. -/
theorem specC2_false : ¬ specC2 := by
  intro h
  exact (h defaultBlockLang ['\\'] ['\\']).2 rfl

/-- A successful `pyFind` really is an occurrence: the slice at the found
index equals the needle (`str.find` semantics). -/
theorem pyFind_slice (text sub : List Char) (start stop j : Nat)
    (h : pyFind text sub start stop = some j) :
    sliceL text j (j + sub.length) = sub := by
  unfold pyFind at h
  have h2 := List.find?_some h
  simp only [Bool.and_eq_true, decide_eq_true_eq, beq_iff_eq] at h2
  exact h2.2

/-- `closestStep` preserves "the candidate marks a real occurrence of the
candidate delimiter". -/
theorem closestStep_occurrence (text : List Char) (esc : Char)
    (offset lookahead : Nat) (acc : Nat × Option (List Char))
    (delim : List Char)
    (hacc : ∀ d, acc.2 = some d → sliceL text acc.1 (acc.1 + d.length) = d)
    (d : List Char)
    (hd : (closestStep text esc offset lookahead acc delim).2 = some d) :
    sliceL text (closestStep text esc offset lookahead acc delim).1
      ((closestStep text esc offset lookahead acc delim).1 + d.length) = d := by
  unfold closestStep at hd ⊢
  rcases hfind : pyFind text delim offset (min (acc.1 + 16) (offset + lookahead))
      with _ | j
  · simp only [hfind] at hd ⊢
    exact hacc d hd
  · simp only [hfind] at hd ⊢
    split at hd
    · next hcond =>
        simp only [if_pos hcond]
        simp only at hd
        cases hd
        exact pyFind_slice text delim offset _ j hfind
    · next hcond =>
        simp only [if_neg hcond]
        exact hacc d hd

/-- Folding `closestStep` preserves the occurrence property. -/
theorem foldl_closestStep_occurrence (text : List Char) (esc : Char)
    (offset lookahead : Nat) :
    ∀ (ds : List (List Char)) (acc : Nat × Option (List Char)),
      (∀ d, acc.2 = some d → sliceL text acc.1 (acc.1 + d.length) = d) →
      ∀ d, (ds.foldl (closestStep text esc offset lookahead) acc).2 = some d →
        sliceL text (ds.foldl (closestStep text esc offset lookahead) acc).1
          ((ds.foldl (closestStep text esc offset lookahead) acc).1 + d.length)
          = d := by
  intro ds
  induction ds with
  | nil => exact fun acc hacc => hacc
  | cons delim ds ih =>
    intro acc hacc
    exact ih (closestStep text esc offset lookahead acc delim)
      (closestStep_occurrence text esc offset lookahead acc delim hacc)

/-- The winning candidate of the inner loop marks a real occurrence. -/
theorem closestDelimiter_occurrence (text : List Char)
    (ds : List (List Char)) (esc : Char) (offset lookahead : Nat)
    (i : Nat) (d : List Char)
    (h : closestDelimiter text ds esc offset lookahead = (i, some d)) :
    sliceL text i (i + d.length) = d := by
  have h2 := foldl_closestStep_occurrence text esc offset lookahead ds
    (text.length, none) (by intro d hd; cases hd) d
  rw [closestDelimiter] at h
  rw [h] at h2
  exact h2 rfl

/-- Every delimiter triple produced by the scanner loop spans exactly its
delimiter: the second component is `start + length`, and the slice at the
span is the delimiter itself. -/
theorem iterDelimitersLoop_spans (text : List Char) (ds : List (List Char))
    (esc : Char) (la : Nat) :
    ∀ (fuel offset : Nat) (m : DelimiterMatch),
      m ∈ (iterDelimitersLoop text ds esc la fuel offset).1 →
      ∀ d, m.delim = some d →
        m.stop = m.start + d.length ∧ sliceL text m.start m.stop = d := by
  intro fuel
  induction fuel with
  | zero => intro offset m hm; cases hm
  | succ fuel ih =>
    intro offset m hm d hd
    unfold iterDelimitersLoop at hm
    by_cases hlt : offset < text.length
    · rw [if_pos hlt] at hm
      rcases hc : closestDelimiter text ds esc offset la with ⟨i, _ | d0⟩
      · rw [hc] at hm
        exact ih _ m hm d hd
      · rw [hc] at hm
        simp only [List.mem_cons] at hm
        rcases hm with hm | hm
        · subst hm
          simp only at hd
          cases hd
          exact ⟨rfl, closestDelimiter_occurrence text ds esc offset la i d hc⟩
        · exact ih _ m hm d hd
    · rw [if_neg hlt] at hm
      cases hm

/-- C1 (corrected), amended: whenever the scanner finds a delimiter it
yields a triple whose first component is the start offset of the
delimiter occurrence itself and whose second component is the end of the
delimiter — the gap text since the previous yield is skipped, not made
part of the span. -/
theorem c1_scanner_yields_delimiter_span (text : List Char)
    (ds : List (List Char)) (esc : Char) (la : Nat) (m : DelimiterMatch)
    (d : List Char) (hm : m ∈ iterDelimiters text ds esc la)
    (hd : m.delim = some d) :
    m.stop = m.start + d.length ∧ sliceL text m.start m.stop = d := by
  unfold iterDelimiters at hm
  by_cases htr :
      (iterDelimitersLoop text ds esc la (text.length + 1) 0).2 < text.length
  · rw [if_pos htr] at hm
    rcases List.mem_append.mp hm with hm | hm
    · exact iterDelimitersLoop_spans text ds esc la _ 0 m hm d hd
    · simp only [List.mem_singleton] at hm
      subst hm
      cases hd
  · rw [if_neg htr] at hm
    exact iterDelimitersLoop_spans text ds esc la _ 0 m hm d hd

/-- Witness for the amended C1 at the counterexample input: the triple
`(2, 3, ";")` is a member of the scan of `"ab;"`, and its span is exactly
the delimiter occurrence. -/
theorem c1_scanner_yields_delimiter_span_witness :
    (⟨2, 3, some [';']⟩ : DelimiterMatch) ∈
      iterDelimiters "ab;".toList [";".toList] '\\' 256 ∧
    3 = 2 + [';'].length ∧ sliceL "ab;".toList 2 3 = [';'] :=
  ⟨by decide,
    c1_scanner_yields_delimiter_span "ab;".toList [";".toList] '\\' 256
      ⟨2, 3, some [';']⟩ [';'] (by decide) rfl⟩

/-- A key that occurs in an association list is found by `lookup`. -/
theorem lookup_isSome_of_mem_keys {d : List Char} :
    ∀ (ps : List (List Char × String)), d ∈ ps.map Prod.fst →
      (List.lookup d ps).isSome := by
  intro ps
  induction ps with
  | nil => intro h; cases h
  | cons p t ih =>
    rcases p with ⟨k, v⟩
    intro h
    simp only [List.map_cons, List.mem_cons] at h
    simp only [List.lookup]
    by_cases hdk : (d == k) = true
    · rw [hdk]; rfl
    · rw [Bool.not_eq_true] at hdk
      rw [hdk]
      rcases h with h | h
      · exact absurd (beq_iff_eq.mpr h) (by rw [hdk]; exact Bool.false_ne_true)
      · exact ih h

/-- C2 (corrected), amended: in every table built by the `BlockLanguage`
constructor, every literal of the combined delimiter list other than the
escape character itself maps to an event kind, so the classifier's fatal
unknown-delimiter branch can only be reached by an occurrence of the
escape character. -/
theorem c2_non_escape_delimiters_classified (l : BlockLang)
    (d : List Char) (hd : d ∈ l.delimiters) (hne : d ≠ [l.escape]) :
    (l.eventsGet d).isSome := by
  unfold BlockLang.eventsGet
  apply lookup_isSome_of_mem_keys
  rw [List.map_reverse, List.mem_reverse]
  unfold BlockLang.delimiters at hd
  unfold BlockLang.eventPairs
  simp only [List.map_append, List.map_map, List.mem_append] at hd ⊢
  simp only [List.mem_singleton] at hd
  rcases hd with ((((((h | h) | h) | h) | h) | h) | h)
  · exact absurd h hne
  · left; left; left; left; left
    simpa [Function.comp] using h
  · left; left; right
    simpa [Function.comp] using h
  · left; right
    simpa [Function.comp] using h
  · right
    simpa [Function.comp] using h
  · left; left; left; left; right
    simpa [Function.comp] using h
  · left; left; left; right
    simpa [Function.comp] using h

/-- Witness for the amended C2: the statement terminator `";"` of the
default table is a non-escape delimiter and is classified. -/
theorem c2_non_escape_delimiters_classified_witness :
    [';'] ∈ defaultBlockLang.delimiters ∧
    [';'] ≠ [defaultBlockLang.escape] ∧
    (defaultBlockLang.eventsGet [';']).isSome :=
  ⟨by decide, by decide,
    c2_non_escape_delimiters_classified defaultBlockLang [';']
      (by decide) (by decide)⟩

/-- C5 (corrected), amended: feeding a close event while only the root
frame remains does raise the fatal `"More pops than pushes"` error, but
only after popping the root frame — the stack is left empty (the heap is
untouched). -/
theorem c5_pop_on_root_only_frame (src : List Char) (st : ExtState)
    (ev : PEvent) (f : Nat × String) (hs : st.stack = [f])
    (he : ev.type = ParseEvent.BLOCK_END) :
    (extFeed src st ev).2 = some "More pops than pushes" ∧
    (extFeed src st ev).1.stack = [] ∧
    (extFeed src st ev).1.store = st.store := by
  have hgl : st.stack.getLast? = some f := by rw [hs]; rfl
  unfold extFeed
  rw [hgl, he]
  simp only [ParseEvent.BLOCK_END, ParseEvent.COMMENT, ParseEvent.BLOCK_START,
    ParseEvent.LINE_END, ParseEvent.STATEMENT_END]
  norm_num
  unfold ExtState.pop
  rw [hgl, hs]
  simp

/-- Witness for the amended C5: a fresh extractor fed one block-end. -/
theorem c5_pop_on_root_only_frame_witness :
    (ExtState.init true).stack = [(0, "")] ∧
    (⟨ParseEvent.BLOCK_END, 0, 0, none⟩ : PEvent).type =
      ParseEvent.BLOCK_END ∧
    (extFeed [] (ExtState.init true) ⟨ParseEvent.BLOCK_END, 0, 0, none⟩).2 =
      some "More pops than pushes" ∧
    (extFeed [] (ExtState.init true) ⟨ParseEvent.BLOCK_END, 0, 0, none⟩).1.stack
      = [] := by
  refine ⟨rfl, rfl, ?_, ?_⟩
  · exact (c5_pop_on_root_only_frame [] (ExtState.init true)
      ⟨ParseEvent.BLOCK_END, 0, 0, none⟩ (0, "") rfl rfl).1
  · exact (c5_pop_on_root_only_frame [] (ExtState.init true)
      ⟨ParseEvent.BLOCK_END, 0, 0, none⟩ (0, "") rfl rfl).2.1

/-- Effect of `dst.add(c.detach())` on the heap, for a child `c` of `src`
distinct from both `src` and `dst`: `c` leaves `src`'s child list, is
appended to `dst`'s, gets `dst` as parent, and nothing else changes. -/
theorem moveOne_spec (s : Store) (src dst c : Nat) (srcd dstd cd : NodeData)
    (hsrc : s src = some srcd) (hdst : s dst = some dstd)
    (hc : s c = some cd) (hp : cd.parent = some src)
    (h1 : c ≠ src) (h2 : c ≠ dst) (h3 : src ≠ dst) :
    storeAdd (storeDetach s c) dst c src =
      some { srcd with children := srcd.children.erase c } ∧
    storeAdd (storeDetach s c) dst c dst =
      some { dstd with children := dstd.children ++ [c] } ∧
    storeAdd (storeDetach s c) dst c c =
      some { cd with parent := some dst } ∧
    (∀ x, x ≠ src → x ≠ dst → x ≠ c →
      storeAdd (storeDetach s c) dst c x = s x) := by
  have hd : storeDetach s c =
      (s.set c { cd with parent := none }).set src
        { srcd with children := srcd.children.erase c } := by
    unfold storeDetach storeRemove storeEraseChild storeSetParent
    simp only [hc, hp]
    rw [Store.set_other _ c src _ (Ne.symm h1), hsrc]
  have hdc : storeDetach s c c = some { cd with parent := none } := by
    rw [hd, Store.set_other _ src c _ h1, Store.set_same]
  have hddst : storeDetach s c dst = some dstd := by
    rw [hd, Store.set_other _ src dst _ (Ne.symm h3),
      Store.set_other _ c dst _ (Ne.symm h2), hdst]
  have ha : storeAdd (storeDetach s c) dst c =
      ((storeDetach s c).set c { cd with parent := some dst }).set dst
        { dstd with children := dstd.children ++ [c] } := by
    unfold storeAdd storeAppendChild storeSetParent
    simp only [hdc]
    rw [Store.set_other _ c dst _ (Ne.symm h2), hddst]
  refine ⟨?_, ?_, ?_, ?_⟩
  · rw [ha, Store.set_other _ dst src _ h3, Store.set_other _ c src _ (Ne.symm h1),
      hd, Store.set_same]
  · rw [ha, Store.set_same]
  · rw [ha, Store.set_other _ dst c _ h2, Store.set_same]
  · intro x hx1 hx2 hx3
    rw [ha, Store.set_other _ dst x _ hx2, Store.set_other _ c x _ hx3,
      hd, Store.set_other _ src x _ hx1, Store.set_other _ c x _ hx3]

/-- Effect of the `for c in cs: dst.add(c.detach())` loop on the heap:
`src` loses the moved children, `dst` gains them in order at the end of
its child list, every moved node is re-parented to `dst`, and every other
node is untouched. -/
theorem moveChildren_spec (src dst : Nat) (h3 : src ≠ dst) :
    ∀ (cs : List Nat) (s : Store) (srcd dstd : NodeData),
      s src = some srcd → s dst = some dstd →
      cs.Nodup → src ∉ cs → dst ∉ cs →
      (∀ c ∈ cs, ∃ cd : NodeData, s c = some cd ∧ cd.parent = some src) →
      moveChildren dst cs s src =
        some { srcd with children := cs.foldl (fun l c => l.erase c) srcd.children } ∧
      moveChildren dst cs s dst =
        some { dstd with children := dstd.children ++ cs } ∧
      (∀ c ∈ cs, ∃ cd : NodeData, s c = some cd ∧
        moveChildren dst cs s c = some { cd with parent := some dst }) ∧
      (∀ x, x ≠ src → x ≠ dst → x ∉ cs → moveChildren dst cs s x = s x) := by
  intro cs
  induction cs with
  | nil =>
    intro s srcd dstd hsrc hdst _ _ _ _
    refine ⟨?_, ?_, ?_, ?_⟩
    · rw [moveChildren]; simpa using hsrc
    · rw [moveChildren]; simpa using hdst
    · intro c hc; cases hc
    · intro x _ _ _; rfl
  | cons c0 cs ih =>
    intro s srcd dstd hsrc hdst hnd hsm hdm hkids
    obtain ⟨cd0, hc0, hp0⟩ := hkids c0 (List.mem_cons_self c0 cs)
    have h1 : c0 ≠ src := fun h => hsm (h ▸ List.mem_cons_self c0 cs)
    have h2 : c0 ≠ dst := fun h => hdm (h ▸ List.mem_cons_self c0 cs)
    obtain ⟨m1, m2, m3, m4⟩ :=
      moveOne_spec s src dst c0 srcd dstd cd0 hsrc hdst hc0 hp0 h1 h2 h3
    have hnotc0 : c0 ∉ cs := (List.nodup_cons.mp hnd).1
    have step : moveChildren dst (c0 :: cs) s =
        moveChildren dst cs (storeAdd (storeDetach s c0) dst c0) := by
      rfl
    have hkids' : ∀ c ∈ cs, ∃ cd : NodeData,
        storeAdd (storeDetach s c0) dst c0 c = some cd ∧
          cd.parent = some src := by
      intro c hc
      obtain ⟨cd, hcd, hpp⟩ := hkids c (List.mem_cons_of_mem c0 hc)
      refine ⟨cd, ?_, hpp⟩
      rw [m4 c (fun h => hsm (h ▸ List.mem_cons_of_mem c0 hc))
        (fun h => hdm (h ▸ List.mem_cons_of_mem c0 hc))
        (fun h => hnotc0 (h ▸ hc))]
      exact hcd
    obtain ⟨i1, i2, i3, i4⟩ := ih (storeAdd (storeDetach s c0) dst c0)
      { srcd with children := srcd.children.erase c0 }
      { dstd with children := dstd.children ++ [c0] }
      m1 m2 (List.nodup_cons.mp hnd).2
      (fun h => hsm (List.mem_cons_of_mem c0 h))
      (fun h => hdm (List.mem_cons_of_mem c0 h)) hkids'
    refine ⟨?_, ?_, ?_, ?_⟩
    · rw [step, i1]
      rfl
    · rw [step, i2]
      simp
    · intro c hc
      rcases List.mem_cons.mp hc with hc | hc
      · subst hc
        refine ⟨cd0, hc0, ?_⟩
        rw [step, i4 c h1 h2 hnotc0, m3]
      · obtain ⟨cd, hcd, hmoved⟩ := i3 c hc
        refine ⟨cd, ?_, ?_⟩
        · rw [m4 c (fun h => hsm (h ▸ List.mem_cons_of_mem c0 hc))
            (fun h => hdm (h ▸ List.mem_cons_of_mem c0 hc))
            (fun h => hnotc0 (h ▸ hc))] at hcd
          exact hcd
        · rw [step, hmoved]
    · intro x hx1 hx2 hx3
      have hx0 : x ≠ c0 := fun h => hx3 (h ▸ List.mem_cons_self c0 cs)
      rw [step, i4 x hx1 hx2 (fun h => hx3 (List.mem_cons_of_mem c0 h)),
        m4 x hx1 hx2 hx0]

/-- Erasing a duplicate-free suffix element by element from the whole
list leaves the prefix. -/
theorem foldl_erase_append :
    ∀ (l2 l1 : List Nat), (l1 ++ l2).Nodup →
      l2.foldl (fun acc c => acc.erase c) (l1 ++ l2) = l1 := by
  intro l2
  induction l2 with
  | nil => intro l1 _; simp
  | cons c l2 ih =>
    intro l1 h
    have hc1 : c ∉ l1 := by
      rcases List.nodup_append.mp h with ⟨_, _, hdisj⟩
      intro hmem
      exact hdisj hmem (List.mem_cons_self c l2)
    have hstep : (l1 ++ c :: l2).erase c = l1 ++ l2 := by
      rw [List.erase_append_right _ hc1, List.erase_cons_head]
    have hnd : (l1 ++ l2).Nodup := by
      refine List.Nodup.sublist ?_ h
      exact List.Sublist.append_left ((List.Sublist.refl l2).cons c) l1
    calc (c :: l2).foldl (fun acc c => acc.erase c) (l1 ++ c :: l2)
        = l2.foldl (fun acc c => acc.erase c) ((l1 ++ c :: l2).erase c) := rfl
      _ = l2.foldl (fun acc c => acc.erase c) (l1 ++ l2) := by rw [hstep]
      _ = l1 := ih l1 hnd

/-- Special case: erasing the members of a duplicate-free list from
itself leaves nothing. -/
theorem foldl_erase_self (l : List Nat) (h : l.Nodup) :
    l.foldl (fun acc c => acc.erase c) l = [] := by
  have := foldl_erase_append l [] (by simpa using h)
  simpa using this

/-- Erasing the duplicate-free drop-suffix leaves the take-prefix. -/
theorem foldl_erase_drop (l : List Nat) (h : l.Nodup) (r : Nat) :
    (l.drop r).foldl (fun acc c => acc.erase c) l = l.take r := by
  have h2 : (l.take r ++ l.drop r).Nodup := by
    rw [List.take_append_drop]; exact h
  have := foldl_erase_append (l.drop r) (l.take r) h2
  rw [List.take_append_drop] at this
  exact this

/-- C4 (corrected), amended: on a statement-end event the extractor
computes the position `r` of the most recent `statement` child *counted
from the end* of the child list (0 when there is none) and then moves the
children `children[r:]` — indexed from the *front* — into the new
`statement` node, in order; the current scope keeps `children[:r]` and
gains the new node at the end.  (This equals "everything since the last
statement" only when no statement child exists.) -/
theorem c4_statement_end_moves_front_slice_at_reversed_index
    (src : List Char) (st : ExtState) (ev : PEvent) (cur : Nat)
    (curTag : String) (cd : NodeData)
    (hstack : st.stack.getLast? = some (cur, curTag))
    (hcur : st.store cur = some cd)
    (hnd : cd.children.Nodup)
    (hkids : ∀ c ∈ cd.children,
      (st.store c).isSome ∧ parentOf st.store c = some cur)
    (hcm : cur ∉ cd.children)
    (hfresh : st.store st.nextId = none)
    (he : ev.type = ParseEvent.STATEMENT_END) :
    (extFeed src st ev).2 = none ∧
    nameOf (extFeed src st ev).1.store st.nextId = some "statement" ∧
    childrenOf (extFeed src st ev).1.store st.nextId =
      cd.children.drop
        ((cd.children.reverse.findIdx?
          (fun c => isStatementNode st.store c)).getD 0) ∧
    childrenOf (extFeed src st ev).1.store cur =
      cd.children.take
        ((cd.children.reverse.findIdx?
          (fun c => isStatementNode st.store c)).getD 0) ++ [st.nextId] ∧
    (∀ c ∈ cd.children.drop
        ((cd.children.reverse.findIdx?
          (fun c => isStatementNode st.store c)).getD 0),
      parentOf (extFeed src st ev).1.store c = some st.nextId) := by
  have hne : cur ≠ st.nextId := by
    intro h
    rw [h, hfresh] at hcur
    cases hcur
  have hkc : childrenOf st.store cur = cd.children := by
    unfold childrenOf
    rw [hcur]
  have hb1 : (extFeed src st ev).2 = none := by
    unfold extFeed
    simp only [hstack]
    rw [he]
    norm_num [ParseEvent.COMMENT, ParseEvent.BLOCK_START, ParseEvent.LINE_END,
      ParseEvent.STATEMENT_END]
    rw [if_neg (show ¬(":statement-end" = ":comment") by decide),
      if_neg (show ¬(":statement-end" = ":block-start") by decide),
      if_neg (show ¬(":statement-end" = ":line-end") by decide)]
  have hb2 : (extFeed src st ev).1.store =
      storeAdd
        (moveChildren st.nextId
          ((childrenOf st.store cur).drop
            (((childrenOf st.store cur).reverse.findIdx?
              (fun c => isStatementNode st.store c)).getD 0))
          (st.store.set st.nextId
            ⟨"statement",
              (if st.withOffsets then
                pyDictSet (pyDictSet [] "start" (AVal.nat ev.start)) "end"
                  (AVal.nat ev.stop)
              else []), [], none⟩))
        cur st.nextId := by
    unfold extFeed
    simp only [hstack]
    rw [he]
    norm_num [ParseEvent.COMMENT, ParseEvent.BLOCK_START, ParseEvent.LINE_END,
      ParseEvent.STATEMENT_END]
    rw [if_neg (show ¬(":statement-end" = ":comment") by decide),
      if_neg (show ¬(":statement-end" = ":block-start") by decide),
      if_neg (show ¬(":statement-end" = ":line-end") by decide)]
    rfl
  rw [hkc] at hb2
  set r := (cd.children.reverse.findIdx?
    (fun c => isStatementNode st.store c)).getD 0 with hr
  set attrs0 := (if st.withOffsets then
      pyDictSet (pyDictSet [] "start" (AVal.nat ev.start)) "end"
        (AVal.nat ev.stop)
    else []) with hattrs0
  set nd0 : NodeData := ⟨"statement", attrs0, [], none⟩ with hnd0
  set store1 := st.store.set st.nextId nd0 with hstore1
  set moved := cd.children.drop r with hmovedeq
  have hsub : moved.Sublist cd.children := by
    rw [hmovedeq]
    exact List.drop_sublist r cd.children
  have hndm : moved.Nodup := hnd.sublist hsub
  have hcurm : cur ∉ moved := fun h => hcm (hsub.subset h)
  have hnidm : st.nextId ∉ moved := by
    intro h
    have h2 := (hkids st.nextId (hsub.subset h)).1
    rw [hfresh] at h2
    cases h2
  have hkids1 : ∀ c ∈ moved, ∃ cdc : NodeData,
      store1 c = some cdc ∧ cdc.parent = some cur := by
    intro c hcmem
    have hcm2 := hkids c (hsub.subset hcmem)
    obtain ⟨cdc, hcdc⟩ := Option.isSome_iff_exists.mp hcm2.1
    have hcnid : c ≠ st.nextId := by
      intro h
      rw [h, hfresh] at hcdc
      cases hcdc
    refine ⟨cdc, ?_, ?_⟩
    · rw [hstore1, Store.set_other _ st.nextId c _ hcnid, hcdc]
    · have h3 := hcm2.2
      unfold parentOf at h3
      rw [hcdc] at h3
      simpa using h3
  have hs1cur : store1 cur = some cd := by
    rw [hstore1, Store.set_other _ st.nextId cur _ hne, hcur]
  have hs1nid : store1 st.nextId = some nd0 := Store.set_same _ _ _
  obtain ⟨f1, f2, f3, f4⟩ := moveChildren_spec cur st.nextId hne moved store1
    cd nd0 hs1cur hs1nid hndm hcurm hnidm hkids1
  have herase : moved.foldl (fun l c => l.erase c) cd.children =
      cd.children.take r := by
    rw [hmovedeq]
    exact foldl_erase_drop cd.children hnd r
  have hfoldnid : moveChildren st.nextId moved store1 st.nextId =
      some ⟨"statement", attrs0, moved, none⟩ := by
    rw [f2]
    rfl
  have hfoldcur : moveChildren st.nextId moved store1 cur =
      some { cd with children := cd.children.take r } := by
    rw [f1, herase]
  have happ : storeAdd (moveChildren st.nextId moved store1) cur st.nextId =
      ((moveChildren st.nextId moved store1).set st.nextId
          ⟨"statement", attrs0, moved, some cur⟩).set cur
        { cd with children := cd.children.take r ++ [st.nextId] } := by
    unfold storeAdd storeAppendChild storeSetParent
    simp only [hfoldnid]
    rw [Store.set_other _ st.nextId cur _ hne, hfoldcur]
  refine ⟨hb1, ?_, ?_, ?_, ?_⟩
  · unfold nameOf
    rw [hb2, happ, Store.set_other _ cur st.nextId _ (Ne.symm hne),
      Store.set_same]
    rfl
  · unfold childrenOf
    rw [hb2, happ, Store.set_other _ cur st.nextId _ (Ne.symm hne),
      Store.set_same]
  · unfold childrenOf
    rw [hb2, happ, Store.set_same]
  · intro c hcmem
    have hcne1 : c ≠ cur := fun h => hcurm (h ▸ hcmem)
    have hcne2 : c ≠ st.nextId := fun h => hnidm (h ▸ hcmem)
    unfold parentOf
    rw [hb2, happ, Store.set_other _ cur c _ hcne1,
      Store.set_other _ st.nextId c _ hcne2]
    obtain ⟨cdc, hcdc, hmovedc⟩ := f3 c hcmem
    rw [hmovedc]
    rfl

/-- Witness for the amended C4: a scope with children
`[statement, text a, text b]` fed a statement-end.  The reversed index of
the statement child is 2, so only `children[2:] = [text b]` is moved: the
scope becomes `[statement, text a, new-statement]` and the new statement
node holds just `text b`. -/
theorem c4_statement_end_moves_front_slice_witness :
    c4State.stack.getLast? = some (0, "") ∧
    c4State.store 0 = some ⟨"root", [], [1, 2, 3], none⟩ ∧
    c4State.store c4State.nextId = none ∧
    (extFeed c4Src c4State c4Event).2 = none ∧
    nameOf (extFeed c4Src c4State c4Event).1.store 4 = some "statement" ∧
    childrenOf (extFeed c4Src c4State c4Event).1.store 4 = [3] ∧
    childrenOf (extFeed c4Src c4State c4Event).1.store 0 = [1, 2, 4] :=
  have h := c4_statement_end_moves_front_slice_at_reversed_index c4Src c4State
    c4Event 0 "" ⟨"root", [], [1, 2, 3], none⟩ (by decide) (by decide)
    (by decide) (by decide) (by decide) (by decide) (by decide)
  ⟨by decide, by decide, by decide, h.1, h.2.1, h.2.2.1.trans (by decide),
    h.2.2.2.1.trans (by decide)⟩

/-- C4 (corrected), counterexample: in a scope whose children are
`[statement, text a, text b]`, the spec says a statement-end moves
`[text a, text b]` (everything after the most recent statement) into the
new statement node; the code moves only `[text b]`, because the index
found by walking from the end (2) is used to slice from the front. -/
theorem specC4_false : ¬ specC4 := by
  intro h
  have h2 := h c4Src c4State c4Event 0 "" ⟨"root", [], [1, 2, 3], none⟩
    (by decide) (by decide) (by decide) (by decide) (by decide) (by decide)
    (by decide)
  exact absurd h2 (by decide)

/-- `List.lookup` over an append: the left list wins. -/
theorem lookup_append_alist (k : String) :
    ∀ (l1 l2 : List (String × AVal)),
      (l1 ++ l2).lookup k =
        match l1.lookup k with
        | some v => some v
        | none => l2.lookup k := by
  intro l1 l2
  induction l1 with
  | nil => simp [List.lookup]
  | cons p t ih =>
    rcases p with ⟨k1, v1⟩
    by_cases hk : (k == k1) = true
    · simp [List.lookup, hk]
    · rw [Bool.not_eq_true] at hk
      simp only [List.cons_append, List.lookup, hk]
      exact ih

/-- Unfolding `List.lookup` at a matching head. -/
theorem lookup_cons_hit (k k1 : String) (v1 : AVal)
    (t : List (String × AVal)) (h : (k == k1) = true) :
    List.lookup k ((k1, v1) :: t) = some v1 := by
  simp [List.lookup, h]

/-- Unfolding `List.lookup` at a non-matching head. -/
theorem lookup_cons_miss (k k1 : String) (v1 : AVal)
    (t : List (String × AVal)) (h : (k == k1) = false) :
    List.lookup k ((k1, v1) :: t) = List.lookup k t := by
  simp [List.lookup, h]

/-- `pyDictUpdateEntry` rewrites an entry with the written key. -/
theorem pyDictUpdateEntry_hit (k k1 : String) (v v1 : AVal)
    (h : (k1 == k) = true) : pyDictUpdateEntry k v (k1, v1) = (k, v) := by
  unfold pyDictUpdateEntry
  rw [show (((k1, v1) : String × AVal).1 == k) = true from h]
  rfl

/-- `pyDictUpdateEntry` keeps an entry with a different key. -/
theorem pyDictUpdateEntry_miss (k k1 : String) (v : AVal) (v1 : AVal)
    (h : (k1 == k) = false) : pyDictUpdateEntry k v (k1, v1) = (k1, v1) := by
  unfold pyDictUpdateEntry
  rw [show (((k1, v1) : String × AVal).1 == k) = false from h]
  rfl

/-- The in-place-update branch of `pyDictSet` does not disturb other
keys. -/
theorem lookup_mapUpdate_other (k k0 : String) (v0 : AVal) (h : k ≠ k0) :
    ∀ (d : List (String × AVal)),
      (d.map (pyDictUpdateEntry k0 v0)).lookup k = d.lookup k := by
  intro d
  induction d with
  | nil => rfl
  | cons p t ih =>
    rcases p with ⟨k1, v1⟩
    rw [List.map_cons]
    cases h1 : (k1 == k0) with
    | true =>
        rw [pyDictUpdateEntry_hit k0 k1 v0 v1 h1]
        have hbk : (k == k0) = false := beq_eq_false_iff_ne.mpr h
        have hbk1 : (k == k1) = false := by
          rw [show k1 = k0 from beq_iff_eq.mp h1]
          exact hbk
        rw [lookup_cons_miss k k0 v0 _ hbk, lookup_cons_miss k k1 v1 _ hbk1]
        exact ih
    | false =>
        rw [pyDictUpdateEntry_miss k0 k1 v0 v1 h1]
        cases hbk : (k == k1) with
        | true =>
            rw [lookup_cons_hit k k1 v1 _ hbk, lookup_cons_hit k k1 v1 _ hbk]
        | false =>
            rw [lookup_cons_miss k k1 v1 _ hbk,
              lookup_cons_miss k k1 v1 _ hbk]
            exact ih

/-- The in-place-update branch of `pyDictSet` makes a present key read
back the new value. -/
theorem lookup_mapUpdate_self (k0 : String) (v0 : AVal) :
    ∀ (d : List (String × AVal)), (d.lookup k0).isSome = true →
      (d.map (pyDictUpdateEntry k0 v0)).lookup k0 = some v0 := by
  intro d
  induction d with
  | nil => intro h; cases h
  | cons p t ih =>
    rcases p with ⟨k1, v1⟩
    intro hs
    rw [List.map_cons]
    cases h1 : (k0 == k1) with
    | true =>
        rw [pyDictUpdateEntry_hit k0 k1 v0 v1
          (beq_iff_eq.mpr (beq_iff_eq.mp h1).symm)]
        exact lookup_cons_hit k0 k0 v0 _ (beq_self_eq_true k0)
    | false =>
        rw [pyDictUpdateEntry_miss k0 k1 v0 v1
          (beq_eq_false_iff_ne.mpr (Ne.symm (beq_eq_false_iff_ne.mp h1)))]
        rw [lookup_cons_miss k0 k1 v1 _ h1]
        rw [lookup_cons_miss k0 k1 v1 _ h1] at hs
        exact ih hs

/-- `pyDictSet` makes the written key read back the written value. -/
theorem lookup_pyDictSet_self (d : List (String × AVal)) (k : String)
    (v : AVal) : (pyDictSet d k v).lookup k = some v := by
  unfold pyDictSet
  by_cases hs : (List.lookup k d).isSome = true
  · rw [if_pos hs]
    exact lookup_mapUpdate_self k v d hs
  · rw [if_neg hs]
    cases hd : List.lookup k d with
    | some v2 => exact absurd (by rw [hd]; rfl) hs
    | none =>
        rw [lookup_append_alist k d [(k, v)], hd]
        exact lookup_cons_hit k k v [] (beq_self_eq_true k)

/-- `pyDictSet` does not disturb other keys. -/
theorem lookup_pyDictSet_other (d : List (String × AVal)) (k k0 : String)
    (v0 : AVal) (h : k ≠ k0) :
    (pyDictSet d k0 v0).lookup k = d.lookup k := by
  unfold pyDictSet
  by_cases hs : (List.lookup k0 d).isSome = true
  · rw [if_pos hs]
    exact lookup_mapUpdate_other k k0 v0 h d
  · rw [if_neg hs]
    rw [lookup_append_alist k d [(k0, v0)]]
    have hbk : (k == k0) = false := beq_eq_false_iff_ne.mpr h
    cases hd : List.lookup k d with
    | some v2 => rfl
    | none =>
        rw [lookup_cons_miss k k0 v0 [] hbk]
        rfl

/-- Keys that never occur in the merged-in attribute list are untouched by
the merge fold, whatever the `replace` flag. -/
theorem mergeAttrs_untouched (k : String) (replace : Bool) :
    ∀ (b a : List (String × AVal)), k ∉ b.map Prod.fst →
      (mergeAttrsFold a b replace).lookup k = a.lookup k := by
  intro b
  induction b with
  | nil => intro a _; rfl
  | cons p b ih =>
    rcases p with ⟨k0, v0⟩
    intro a hk
    simp only [List.map_cons, List.mem_cons] at hk
    push_neg at hk
    have hstep : mergeAttrsFold a ((k0, v0) :: b) replace =
        mergeAttrsFold
          (if replace || (a.lookup k0).isNone then pyDictSet a k0 v0 else a)
          b replace := rfl
    rw [hstep, ih _ hk.2]
    by_cases hc : (replace || (a.lookup k0).isNone) = true
    · rw [if_pos hc]
      exact lookup_pyDictSet_other a k k0 v0 hk.1
    · rw [if_neg hc]

/-- C10 helper: with `replace=False` the merge fold keeps every key
already present with its existing value. -/
theorem mergeAttrs_keeps_existing :
    ∀ (b a : List (String × AVal)) (k : String) (v : AVal),
      a.lookup k = some v → (mergeAttrsFold a b false).lookup k = some v := by
  intro b
  induction b with
  | nil => intro a k v hv; exact hv
  | cons p b ih =>
    rcases p with ⟨k0, v0⟩
    intro a k v hv
    have hstep : mergeAttrsFold a ((k0, v0) :: b) false =
        mergeAttrsFold
          (if false || (a.lookup k0).isNone then pyDictSet a k0 v0 else a)
          b false := rfl
    rw [hstep]
    by_cases hc : (false || (a.lookup k0).isNone) = true
    · rw [if_pos hc]
      refine ih _ k v ?_
      have hk0 : k ≠ k0 := by
        intro hh
        subst hh
        simp only [Bool.false_or, Option.isNone_iff_eq_none] at hc
        rw [hv] at hc
        cases hc
      rw [lookup_pyDictSet_other a k k0 v0 hk0]
      exact hv
    · rw [if_neg hc]
      exact ih _ k v hv

/-- C10 helper: with `replace=False` a key absent from the target is
copied from the source (source keys assumed unique, as in a dict). -/
theorem mergeAttrs_copies_absent :
    ∀ (b a : List (String × AVal)) (k : String),
      (b.map Prod.fst).Nodup → a.lookup k = none →
      (mergeAttrsFold a b false).lookup k = b.lookup k := by
  intro b
  induction b with
  | nil => intro a k _ ha; exact ha
  | cons p b ih =>
    rcases p with ⟨k0, v0⟩
    intro a k hnd ha
    simp only [List.map_cons, List.nodup_cons] at hnd
    have hstep : mergeAttrsFold a ((k0, v0) :: b) false =
        mergeAttrsFold
          (if false || (a.lookup k0).isNone then pyDictSet a k0 v0 else a)
          b false := rfl
    rw [hstep]
    by_cases hkk : k = k0
    · subst hkk
      rw [if_pos (by simp [Option.isNone_iff_eq_none, ha])]
      rw [mergeAttrs_untouched k false b _ hnd.1]
      rw [lookup_pyDictSet_self a k v0]
      rw [lookup_cons_hit k k v0 b (beq_self_eq_true k)]
    · rw [lookup_cons_miss k k0 v0 b (beq_eq_false_iff_ne.mpr hkk)]
      by_cases hc : (false || (a.lookup k0).isNone) = true
      · rw [if_pos hc]
        refine ih _ k hnd.2 ?_
        rw [lookup_pyDictSet_other a k k0 v0 hkk]
        exact ha
      · rw [if_neg hc]
        exact ih _ k hnd.2 ha

/-- C10 helper: with `replace=True` every source key ends up with the
source's value (source keys assumed unique). -/
theorem mergeAttrs_replace_overwrites :
    ∀ (b a : List (String × AVal)) (k : String) (v : AVal),
      (b.map Prod.fst).Nodup → b.lookup k = some v →
      (mergeAttrsFold a b true).lookup k = some v := by
  intro b
  induction b with
  | nil => intro a k v _ hb; cases hb
  | cons p b ih =>
    rcases p with ⟨k0, v0⟩
    intro a k v hnd hb
    simp only [List.map_cons, List.nodup_cons] at hnd
    have hstep : mergeAttrsFold a ((k0, v0) :: b) true =
        mergeAttrsFold (pyDictSet a k0 v0) b true := by
      unfold mergeAttrsFold
      rw [List.foldl_cons]
      rw [if_pos (by simp)]
    rw [hstep]
    by_cases hkk : k = k0
    · subst hkk
      rw [lookup_cons_hit k k v0 b (beq_self_eq_true k)] at hb
      cases hb
      rw [mergeAttrs_untouched k true b _ hnd.1]
      exact lookup_pyDictSet_self a k v0
    · rw [lookup_cons_miss k k0 v0 b (beq_eq_false_iff_ne.mpr hkk)] at hb
      exact ih _ k v hnd.2 hb

/-- The heap effect of `a.merge(b)` with the default arguments
(`attributes=True`, `replace=False`): `a` gets the merged attribute dict
and `b`'s children appended, `b` is left childless, and every moved child
is re-parented to `a`. -/
theorem storeMerge_spec (s : Store) (a b : Nat) (ad bd : NodeData)
    (ha : s a = some ad) (hb : s b = some bd) (hab : a ≠ b)
    (hnd : bd.children.Nodup)
    (hkids : ∀ c ∈ bd.children, ∃ cd : NodeData,
      s c = some cd ∧ cd.parent = some b)
    (hna : a ∉ bd.children) (hnb : b ∉ bd.children) :
    storeMerge s a b true false a =
      some { ad with
              attrs := mergeAttrsFold ad.attrs bd.attrs false
              children := ad.children ++ bd.children } ∧
    storeMerge s a b true false b = some { bd with children := [] } ∧
    (∀ c ∈ bd.children, ∃ cd : NodeData, s c = some cd ∧
      storeMerge s a b true false c = some { cd with parent := some a }) := by
  have hm : storeMerge s a b true false =
      moveChildren a bd.children
        (s.set a { ad with attrs := mergeAttrsFold ad.attrs bd.attrs false }) := by
    unfold storeMerge
    simp only [ha, hb]
    rfl
  set s1 := s.set a { ad with attrs := mergeAttrsFold ad.attrs bd.attrs false }
    with hs1
  have hs1a : s1 a =
      some { ad with attrs := mergeAttrsFold ad.attrs bd.attrs false } :=
    Store.set_same _ _ _
  have hs1b : s1 b = some bd := by
    rw [hs1, Store.set_other _ a b _ (Ne.symm hab), hb]
  have hkids1 : ∀ c ∈ bd.children, ∃ cd : NodeData,
      s1 c = some cd ∧ cd.parent = some b := by
    intro c hc
    obtain ⟨cd, hcd, hp⟩ := hkids c hc
    refine ⟨cd, ?_, hp⟩
    rw [hs1, Store.set_other _ a c _ (fun hh => hna (hh ▸ hc)), hcd]
  obtain ⟨f1, f2, f3, f4⟩ := moveChildren_spec b a (Ne.symm hab) bd.children s1
    bd { ad with attrs := mergeAttrsFold ad.attrs bd.attrs false }
    hs1b hs1a hnd hnb hna hkids1
  refine ⟨?_, ?_, ?_⟩
  · rw [hm, f2]
  · rw [hm, f1, foldl_erase_self bd.children hnd]
  · intro c hc
    obtain ⟨cd, hcd, hmv⟩ := f3 c hc
    refine ⟨cd, ?_, ?_⟩
    · rw [hs1, Store.set_other _ a c _ (fun hh => hna (hh ▸ hc))] at hcd
      exact hcd
    · rw [hm, hmv]

/-- C10 (confirmed): for distinct nodes `a` and `b` (with `b`'s children
forming a well-formed family and `a` not among them), `a.merge(b)` with
the default arguments keeps every attribute key already present on `a`
with its existing value, copies `b`'s attribute values only for keys
absent from `a` (only `replace=True` overwrites), and moves all of `b`'s
children, in order, to the end of `a`'s children (re-parenting them to
`a` and leaving `b` childless); `a.absorb(b)` first detaches `b` and then
behaves the same. -/
theorem c10_merge_absorb_contract (s : Store) (a b : Nat) (ad bd : NodeData)
    (ha : s a = some ad) (hb : s b = some bd) (hab : a ≠ b)
    (hnd : bd.children.Nodup)
    (hkids : ∀ c ∈ bd.children, (s c).isSome ∧ parentOf s c = some b)
    (hna : a ∉ bd.children) (hnb : b ∉ bd.children)
    (hkeys : (bd.attrs.map Prod.fst).Nodup)
    (hpar : bd.parent = none ∨ ∃ q qd, bd.parent = some q ∧ s q = some qd ∧
      q ≠ a ∧ q ≠ b ∧ q ∉ bd.children) :
    storeMerge s a b true false a =
      some { ad with
              attrs := mergeAttrsFold ad.attrs bd.attrs false
              children := ad.children ++ bd.children } ∧
    (∀ k v, ad.attrs.lookup k = some v →
      (mergeAttrsFold ad.attrs bd.attrs false).lookup k = some v) ∧
    (∀ k, ad.attrs.lookup k = none →
      (mergeAttrsFold ad.attrs bd.attrs false).lookup k =
        bd.attrs.lookup k) ∧
    (∀ k v, bd.attrs.lookup k = some v →
      (mergeAttrsFold ad.attrs bd.attrs true).lookup k = some v) ∧
    (∀ c ∈ bd.children, ∃ cd : NodeData, s c = some cd ∧
      storeMerge s a b true false c = some { cd with parent := some a }) ∧
    storeMerge s a b true false b = some { bd with children := [] } ∧
    storeAbsorb s a b a =
      some { ad with
              attrs := mergeAttrsFold ad.attrs bd.attrs false
              children := ad.children ++ bd.children } ∧
    storeAbsorb s a b b = some { bd with parent := none, children := [] } := by
  have hkids' : ∀ c ∈ bd.children, ∃ cd : NodeData,
      s c = some cd ∧ cd.parent = some b := by
    intro c hc
    obtain ⟨cd, hcd⟩ := Option.isSome_iff_exists.mp (hkids c hc).1
    have hp := (hkids c hc).2
    unfold parentOf at hp
    rw [hcd] at hp
    exact ⟨cd, hcd, by simpa using hp⟩
  obtain ⟨m1, m2, m3⟩ :=
    storeMerge_spec s a b ad bd ha hb hab hnd hkids' hna hnb
  have habsorb :
      storeAbsorb s a b a =
        some { ad with
                attrs := mergeAttrsFold ad.attrs bd.attrs false
                children := ad.children ++ bd.children } ∧
      storeAbsorb s a b b =
        some { bd with parent := none, children := [] } := by
    rcases hpar with hpn | ⟨q, qd, hpq, hq, hqa, hqb, hqc⟩
    · have hdet : storeDetach s b = s := by
        unfold storeDetach
        simp only [hb, hpn]
      have hbd : { bd with parent := none, children := ([] : List Nat) } =
          { bd with children := ([] : List Nat) } := by
        rcases bd with ⟨n, at0, ch, par⟩
        simp only at hpn
        rw [hpn]
      unfold storeAbsorb
      rw [hdet, hbd]
      exact ⟨m1, m2⟩
    · have hdet : storeDetach s b =
          (s.set b { bd with parent := none }).set q
            { qd with children := qd.children.erase b } := by
        unfold storeDetach storeRemove storeEraseChild storeSetParent
        simp only [hb, hpq]
        rw [Store.set_other _ b q _ hqb, hq]
      have hsda : storeDetach s b a = some ad := by
        rw [hdet, Store.set_other _ q a _ (Ne.symm hqa),
          Store.set_other _ b a _ hab, ha]
      have hsdb : storeDetach s b b = some { bd with parent := none } := by
        rw [hdet, Store.set_other _ q b _ (Ne.symm hqb), Store.set_same]
      have hkids2 : ∀ c ∈ ({ bd with parent := none } : NodeData).children,
          ∃ cd : NodeData, storeDetach s b c = some cd ∧
            cd.parent = some b := by
        intro c hc
        obtain ⟨cd, hcd, hp⟩ := hkids' c hc
        refine ⟨cd, ?_, hp⟩
        rw [hdet, Store.set_other _ q c _ (fun hh => hqc (hh ▸ hc)),
          Store.set_other _ b c _ (fun hh => hnb (hh ▸ hc)), hcd]
      obtain ⟨n1, n2, _⟩ := storeMerge_spec (storeDetach s b) a b ad
        { bd with parent := none } hsda hsdb hab hnd hkids2 hna hnb
      exact ⟨n1, n2⟩
  refine ⟨m1, ?_, ?_, ?_, ?_, m2, habsorb.1, habsorb.2⟩
  · intro k v hv
    exact mergeAttrs_keeps_existing bd.attrs ad.attrs k v hv
  · intro k hk
    exact mergeAttrs_copies_absent bd.attrs ad.attrs k hkeys hk
  · intro k v hv
    exact mergeAttrs_replace_overwrites bd.attrs ad.attrs k v hkeys hv
  · intro c hc
    obtain ⟨cd, hcd, hmv⟩ := m3 c hc
    exact ⟨cd, hcd, hmv⟩

/-- Witness for C10 at a concrete heap: `a` (id 0, attributes
`k='x', i=1`, one child) merges/absorbs `b` (id 1, attributes
`k='y', j=2`, children 4 and 5, parent 6).  `a` keeps `k='x'`, gains
`j=2`, and its child list becomes `[3, 4, 5]`; `b` is left childless, and
after `absorb` also detached from node 6. -/
theorem c10_merge_absorb_contract_witness :
    c10Store 0 = some ⟨"a", [("k", AVal.str ['x']), ("i", AVal.nat 1)],
      [3], none⟩ ∧
    c10Store 1 = some ⟨"b", [("k", AVal.str ['y']), ("j", AVal.nat 2)],
      [4, 5], some 6⟩ ∧
    storeMerge c10Store 0 1 true false 0 =
      some ⟨"a", [("k", AVal.str ['x']), ("i", AVal.nat 1),
        ("j", AVal.nat 2)], [3, 4, 5], none⟩ ∧
    storeMerge c10Store 0 1 true false 1 =
      some ⟨"b", [("k", AVal.str ['y']), ("j", AVal.nat 2)], [], some 6⟩ ∧
    storeAbsorb c10Store 0 1 0 =
      some ⟨"a", [("k", AVal.str ['x']), ("i", AVal.nat 1),
        ("j", AVal.nat 2)], [3, 4, 5], none⟩ ∧
    storeAbsorb c10Store 0 1 1 =
      some ⟨"b", [("k", AVal.str ['y']), ("j", AVal.nat 2)], [], none⟩ :=
  have h := c10_merge_absorb_contract c10Store 0 1
    ⟨"a", [("k", AVal.str ['x']), ("i", AVal.nat 1)], [3], none⟩
    ⟨"b", [("k", AVal.str ['y']), ("j", AVal.nat 2)], [4, 5], some 6⟩
    (by decide) (by decide) (by decide) (by decide) (by decide) (by decide)
    (by decide) (by decide)
    (Or.inr ⟨6, ⟨"q", [], [1], none⟩, by decide, by decide, by decide,
      by decide, by decide⟩)
  ⟨by decide, by decide, h.1.trans (by decide), h.2.2.2.2.2.1.trans (by decide),
    h.2.2.2.2.2.2.1.trans (by decide), h.2.2.2.2.2.2.2.trans (by decide)⟩
